import Mathlib

/-
  Verification of the Pagy Blocker filter compiler and domain override engine.

  The definitions below are a shallow embedding of the two source files that
  carry the system's logic:

  * filter_precompiler.js — precompileFilterList: line scanning, trimming,
    pattern classification and rule construction;
  * background.js — hashCode, updateSessionRulesForDomain,
    toggleRulesetFuerDomain, toggleRuleset, handleToggleBlocking and the
    startup listeners, together with a small model of the Chrome
    declarativeNetRequest session-rule table and of chrome.storage.local.

  Strings are modelled as List Char (JS charCodeAt is Char.toNat, exact for
  the basic-multilingual-plane characters that occur in filter lists and
  domain names).  JS 32-bit integer coercion is modelled with explicit
  arithmetic modulo 2 ^ 32 on Int.  The lastUpdate wall-clock timestamp kept
  in storage is omitted: it carries no behavioural information (the spec
  calls it "not behaviorally load-bearing").
-/

set_option maxHeartbeats 1000000
set_option maxRecDepth 100000

namespace PagyBlocker

/-- Characters removed by the compiler's inline trim loop in
filter_precompiler.js: ASCII space, tab and carriage return. -/
def isTrimChar (c : Char) : Bool :=
  decide (c = ' ') || decide (c = '\t') || decide (c = '\r')

/-- Logical lines of the compilation input, exactly as produced by the
indexOf-based scanning loop of precompileFilterList: the segments between
newline characters; when the text ends in a newline there is no final empty
segment, because the loop condition lineStart < textLength fails there. -/
def jsLines : List Char → List (List Char)
  | [] => []
  | c :: cs =>
    if c = '\n' then [] :: jsLines cs
    else
      match jsLines cs with
      | [] => [[c]]
      | l :: ls => (c :: l) :: ls

/-- Drop one trailing carriage return, the endsWith check preceding the trim
loop in precompileFilterList. -/
def stripCR (l : List Char) : List Char :=
  if l.getLast? = some '\r' then l.dropLast else l

/-- The compiler's trim: advance start past space, tab and CR, retreat end
past the same characters, and take the substring in between. -/
def jsTrim (l : List Char) : List Char :=
  (((l.dropWhile isTrimChar).reverse).dropWhile isTrimChar).reverse

/-- The trimmed form of one raw line, as the compiler computes it. -/
def trimmedOf (line : List Char) : List Char := jsTrim (stripCR line)

/-- CONFIG.MAX_FILTER_LENGTH from filter_precompiler.js. -/
def MAX_FILTER_LENGTH : Nat := 1000

/-- The per-character validity check of the compiler's inner loop: the domain
body may not contain an asterisk, a slash or the null character. -/
def okChar (c : Char) : Bool :=
  !(decide (c = '*') || decide (c = '/') || decide (c = Char.ofNat 0))

/-- The skip test of precompileFilterList: empty after trimming, or first
character a comment or section marker. -/
def isCommentOrEmpty (t : List Char) : Bool :=
  t.isEmpty || decide (t.head? = some '#') || decide (t.head? = some '!') ||
    decide (t.head? = some '[')

/-- The fixed resourceTypes array attached to every compiled rule. -/
def resourceTypesList : List String :=
  ["main_frame", "sub_frame", "stylesheet", "script", "image", "font",
   "object", "xmlhttprequest", "ping", "csp_report", "media", "websocket", "other"]

/-- One declarativeNetRequest rule produced by the compiler. -/
structure CompiledRule where
  id : Nat
  priority : Nat
  actionType : String
  urlFilter : List Char
  resourceTypes : List String
deriving DecidableEq, Repr

/-- Rule construction in the accepting branch of precompileFilterList. -/
def mkRule (i p : Nat) (t : List Char) : CompiledRule :=
  { id := i, priority := p, actionType := "block", urlFilter := t,
    resourceTypes := resourceTypesList }

/-- The mutable loop state of precompileFilterList. -/
structure CompState where
  ruleId : Nat
  rules : List CompiledRule
  processedRules : Nat
  skippedLines : Nat
  errors : Nat
deriving DecidableEq, Repr

/-- The startsWith anchor test of the compiler. -/
def startsWithBars (t : List Char) : Bool := decide (t.take 2 = ['|', '|'])

/-- The endsWith anchor test of the compiler. -/
def endsWithCaret (t : List Char) : Bool := decide (t.getLast? = some '^')

/-- One iteration of the compiler's line loop, translated branch for branch
from precompileFilterList.  Nothing in the loop body can throw, so the
errors counter is never incremented. -/
def processLine (priority : Nat) (st : CompState) (rawLine : List Char) : CompState :=
  let t := trimmedOf rawLine
  if isCommentOrEmpty t then
    { st with skippedLines := st.skippedLines + 1 }
  else if decide (4 < t.length) && startsWithBars t && endsWithCaret t then
    let domain := (t.drop 2).dropLast
    if decide (domain.length = 0) || decide (MAX_FILTER_LENGTH < domain.length) then
      { st with skippedLines := st.skippedLines + 1 }
    else if domain.all okChar then
      { st with ruleId := st.ruleId + 1,
                rules := st.rules ++ [mkRule st.ruleId priority t],
                processedRules := st.processedRules + 1 }
    else
      { st with skippedLines := st.skippedLines + 1 }
  else
    { st with skippedLines := st.skippedLines + 1 }

/-- The argument of precompileFilterList: a JS string, or any non-string
value (null, a number, an object, ...), which the input validation is meant
to reject. -/
inductive FilterInput where
  | str (text : List Char)
  | nonString
deriving DecidableEq, Repr

/-- The compilation result: the rule list plus the stats object. -/
structure CompileResult where
  rules : List CompiledRule
  totalLines : Nat
  processedRules : Nat
  skippedLines : Nat
  errors : Nat
deriving DecidableEq, Repr

/-- precompileFilterList from filter_precompiler.js.  The defaulting of the
options uses the JS OR operator, so a zero startId or priority falls back
to 1 exactly as options.startId does for a falsy value. -/
def precompileFilterList (input : FilterInput) (startId priority : Nat) :
    Except String CompileResult :=
  match input with
  | .nonString => .error "Filter text must be a string"
  | .str text =>
    if text.isEmpty then
      .ok { rules := [], totalLines := 0, processedRules := 0,
            skippedLines := 0, errors := 0 }
    else
      let st := (jsLines text).foldl
        (processLine (if priority = 0 then 1 else priority))
        { ruleId := if startId = 0 then 1 else startId, rules := [],
          processedRules := 0, skippedLines := 0, errors := 0 }
      .ok { rules := st.rules, totalLines := st.processedRules + st.skippedLines,
            processedRules := st.processedRules, skippedLines := st.skippedLines,
            errors := st.errors }

/-- The rules component of a compilation, empty on a failed compilation. -/
def compiledRules (input : FilterInput) (startId priority : Nat) : List CompiledRule :=
  match precompileFilterList input startId priority with
  | .ok r => r.rules
  | .error _ => []

/-- Trimming as the specification words it: remove ASCII space, tab and CR
from both ends of the line. -/
def specTrim (l : List Char) : List Char :=
  (((l.dropWhile isTrimChar).reverse).dropWhile isTrimChar).reverse

/-- Ignorable per the specification sentence: empty, or first character a
hash, an exclamation mark or an opening square bracket. -/
def specIgnorable (t : List Char) : Bool :=
  match t with
  | [] => true
  | c :: _ => decide (c = '#') || decide (c = '!') || decide (c = '[')

/-- Well-formed domain pattern per the specification sentence: length
greater than four, the two-character anchor at the start, the caret anchor
at the end, and the body strictly between the anchors non-empty, at most
the configured maximum length and free of asterisk, slash and null. -/
def specWellFormed (t : List Char) : Bool :=
  decide (4 < t.length) && decide (t.take 2 = ['|', '|']) &&
    decide (t.getLast? = some '^') &&
    decide ((t.drop 2).dropLast ≠ []) &&
    decide ((t.drop 2).dropLast.length ≤ MAX_FILTER_LENGTH) &&
    (t.drop 2).dropLast.all (fun c => decide (c ≠ '*' ∧ c ≠ '/' ∧ c ≠ Char.ofNat 0))

/-- Effect of a skipped line on the loop state. -/
def skipSt (st : CompState) : CompState :=
  { st with skippedLines := st.skippedLines + 1 }

/-- Effect of an accepted line with trimmed form t on the loop state. -/
def addSt (priority : Nat) (st : CompState) (t : List Char) : CompState :=
  { st with ruleId := st.ruleId + 1,
            rules := st.rules ++ [mkRule st.ruleId priority t],
            processedRules := st.processedRules + 1 }

/-- The rules the compiler emits for a list of accepted trimmed lines, with
identities counting up from n. -/
def rulesFrom (priority : Nat) : Nat → List (List Char) → List CompiledRule
  | _, [] => []
  | n, t :: ts => mkRule n priority t :: rulesFrom priority (n + 1) ts

/-- The trimmed forms of the input's logical lines that pass the
well-formedness test, in input order. -/
def acceptedLines (text : List Char) : List (List Char) :=
  ((jsLines text).map trimmedOf).filter specWellFormed

/-- JS ToInt32: reduce an integer modulo 2 ^ 32 into the signed 32-bit
range. -/
def toInt32 (n : Int) : Int := (n + 2 ^ 31) % 2 ^ 32 - 2 ^ 31

/-- hashCode from background.js: hash = (hash shifted left by five) minus
hash plus the character code, coerced to a signed 32-bit integer at each
step, with the absolute value taken at the end. -/
def hashCode (s : List Char) : Nat :=
  (s.foldl (fun h c => toInt32 (toInt32 (32 * h) - h + (c.toNat : Int))) 0).natAbs

/-- The session-rule identity pair that updateSessionRulesForDomain derives
for a domain: regelId = hashCode domain, subdomainRegelId = regelId + 1. -/
def overridePair (domain : List Char) : Nat × Nat :=
  (hashCode domain, hashCode domain + 1)

/-- Domains are JS strings. -/
abbrev Dom := List Char

/-- One session rule as passed to chrome.declarativeNetRequest's
updateSessionRules. -/
structure SessionRule where
  id : Nat
  priority : Nat
  actionType : String
  initiatorDomains : List Dom
  requestDomains : List Dom
  resourceTypes : List String
deriving DecidableEq, Repr

/-- The first allow rule of an override pair: requests whose initiator is
the domain. -/
def mkInitiatorAllowRule (i : Nat) (d : Dom) : SessionRule :=
  { id := i, priority := 100000, actionType := "allow",
    initiatorDomains := [d], requestDomains := [],
    resourceTypes := resourceTypesList }

/-- The second allow rule of an override pair: requests directed to the
domain. -/
def mkRequestAllowRule (i : Nat) (d : Dom) : SessionRule :=
  { id := i, priority := 100000, actionType := "allow",
    initiatorDomains := [], requestDomains := [d],
    resourceTypes := resourceTypesList }

/-- Failure injection for the adapter model: each flag makes the
corresponding updateSessionRules call reject, modelling host-engine
failures beyond the deterministic duplicate-identity rejection. -/
structure Oracle where
  failAdd1 : Bool
  failAdd2 : Bool
  failRemove : Bool
deriving DecidableEq, Repr

/-- The oracle under which every adapter call behaves normally. -/
def noFail : Oracle := { failAdd1 := false, failAdd2 := false, failRemove := false }

/-- Chrome's updateSessionRules with one added rule: the call rejects when a
rule with the same identity already exists (or when a failure is injected),
leaving the table unchanged; otherwise the rule is appended. -/
def addSessionRule (inject : Bool) (tbl : List SessionRule) (r : SessionRule) :
    Except Unit (List SessionRule) :=
  if inject || tbl.any (fun q => decide (q.id = r.id)) then .error ()
  else .ok (tbl ++ [r])

/-- Chrome's updateSessionRules with two removed rule identities: removal of
identities not present is a no-op. -/
def removeSessionRulePair (inject : Bool) (tbl : List SessionRule) (i1 i2 : Nat) :
    Except Unit (List SessionRule) :=
  if inject then .error ()
  else .ok (tbl.filter (fun q => decide (q.id ≠ i1 ∧ q.id ≠ i2)))

/-- updateSessionRulesForDomain from background.js.  The whole body sits in
a try block whose catch only logs, so the function itself never propagates
an error; the Bool records whether an adapter error was caught and
swallowed.  On istAktiviert the two rule identities are removed in one
call; otherwise the two allow rules are added in two separate calls, and a
rejection of the first call skips the second. -/
def updateSessionRulesForDomain (o : Oracle) (tbl : List SessionRule) (domain : Dom)
    (istAktiviert : Bool) : List SessionRule × Bool :=
  let regelId := hashCode domain
  if istAktiviert then
    match removeSessionRulePair o.failRemove tbl regelId (regelId + 1) with
    | .ok t => (t, false)
    | .error _ => (tbl, true)
  else
    match addSessionRule o.failAdd1 tbl (mkInitiatorAllowRule regelId domain) with
    | .error _ => (tbl, true)
    | .ok t1 =>
      match addSessionRule o.failAdd2 t1 (mkRequestAllowRule (regelId + 1) domain) with
      | .error _ => (t1, true)
      | .ok t2 => (t2, false)

/-- The persisted storage plus the volatile session-rule table.  The
disabledDomains list and the two Boolean flags live in chrome.storage.local
and survive restarts; sessionRules models the host engine's session-rule
table, which does not. -/
structure World where
  disabledDomains : List Dom
  sessionRules : List SessionRule
  isEnabled : Bool
  ruleset1Enabled : Bool
deriving DecidableEq, Repr

/-- The disabledDomains mutation of toggleRulesetFuerDomain: on enable the
domain is filtered out, on disable it is appended unless already present. -/
def applyDomainToggle (l : List Dom) (domain : Dom) (istAktiviert : Bool) : List Dom :=
  if istAktiviert then l.filter (fun d => decide (d ≠ domain))
  else if domain ∈ l then l else l ++ [domain]

/-- toggleRulesetFuerDomain from background.js: read disabledDomains,
mutate, write the new list back to storage, and only then call
updateSessionRulesForDomain.  The storage write precedes the adapter call,
so the new list is persisted even when the adapter call then fails.  The
surrounding try/catch only logs, so the Bool again records a swallowed
error, never a propagated one. -/
def toggleRulesetFuerDomain (o : Oracle) (s : World) (domain : Dom)
    (istAktiviert : Bool) : World × Bool :=
  let l := applyDomainToggle s.disabledDomains domain istAktiviert
  let u := updateSessionRulesForDomain o s.sessionRules domain istAktiviert
  ({ s with disabledDomains := l, sessionRules := u.1 }, u.2)

/-- toggleRuleset from background.js: enable or disable the static ruleset
and record the flag in storage.  It touches neither disabledDomains nor the
session-rule table. -/
def toggleRuleset (s : World) (istAktiviert : Bool) : World :=
  { s with ruleset1Enabled := istAktiviert, isEnabled := istAktiviert }

/-- The response value of the toggleBlocking message handler. -/
inductive ToggleResponse where
  | success (isEnabled : Bool)
  | failure (msg : String)
deriving DecidableEq, Repr

/-- handleToggleBlocking from background.js for a request whose isEnabled
field is a Boolean (the failure response exists only for the non-Boolean
case, which the typed model cannot express, and for a tab-reload rejection,
which is outside the model).  With a domain the per-domain toggle runs,
otherwise the global one; both swallow adapter failures internally, so the
handler reaches its success return on every adapter outcome. -/
def handleToggleBlocking (o : Oracle) (s : World) (domain : Option Dom)
    (isEnabled : Bool) : World × ToggleResponse :=
  match domain with
  | some d =>
    let u := toggleRulesetFuerDomain o s d isEnabled
    (u.1, .success isEnabled)
  | none => (toggleRuleset s isEnabled, .success isEnabled)

/-- initialisieren from background.js: set isEnabled in storage, then
enable the static ruleset.  No session rules are touched. -/
def initialisieren (s : World) : World :=
  toggleRuleset { s with isEnabled := true } true

/-- The chrome.runtime.onStartup listener: read isEnabled and re-apply the
global ruleset toggle.  Nothing else runs at startup. -/
def onStartupHandler (s : World) : World := toggleRuleset s s.isEnabled

/-- A cold start of the worker: the persisted storage fields survive, the
session-rule table comes up empty, and the onStartup listener runs. -/
def coldStart (s : World) : World := onStartupHandler { s with sessionRules := [] }

/-- Events of two interleaved toggleRulesetFuerDomain calls A and B,
restricted to their storage read-modify-write on disabledDomains: each call
reads the persisted list at its first await and writes its mutated list at
its second. -/
inductive RaceEv where
  | readA
  | writeA
  | readB
  | writeB
deriving DecidableEq, Repr, Fintype

/-- State of the race model: the persisted list plus each call's read
snapshot, if taken. -/
structure RaceState where
  store : List Dom
  snapA : Option (List Dom)
  snapB : Option (List Dom)
deriving DecidableEq, Repr

/-- One scheduler step: a read copies the current persisted list into the
caller's snapshot; a write stores the mutation applied to that snapshot. -/
def raceStep (dA : Dom) (eA : Bool) (dB : Dom) (eB : Bool) (s : RaceState) :
    RaceEv → RaceState
  | .readA => { s with snapA := some s.store }
  | .writeA =>
    match s.snapA with
    | some l => { s with store := applyDomainToggle l dA eA }
    | none => s
  | .readB => { s with snapB := some s.store }
  | .writeB =>
    match s.snapB with
    | some l => { s with store := applyDomainToggle l dB eB }
    | none => s

/-- The persisted list after running a schedule of the two calls from the
initial list l0. -/
def raceExec (dA : Dom) (eA : Bool) (dB : Dom) (eB : Bool) (l0 : List Dom)
    (sched : List RaceEv) : List Dom :=
  (sched.foldl (raceStep dA eA dB eB) { store := l0, snapA := none, snapB := none }).store

/-- All interleavings of the two calls: each call reads before it writes,
and the four events are distinct, leaving exactly six orders. -/
def allScheds : List (List RaceEv) :=
  [[.readA, .writeA, .readB, .writeB],
   [.readB, .writeB, .readA, .writeA],
   [.readA, .readB, .writeA, .writeB],
   [.readA, .readB, .writeB, .writeA],
   [.readB, .readA, .writeA, .writeB],
   [.readB, .readA, .writeB, .writeA]]

/-- A four-event schedule is valid when it contains each event once and
each call's read precedes its write. -/
def validSched (sched : List RaceEv) : Bool :=
  decide (sched.count .readA = 1) && decide (sched.count .writeA = 1) &&
    decide (sched.count .readB = 1) && decide (sched.count .writeB = 1) &&
    decide (sched.indexOf RaceEv.readA < sched.indexOf RaceEv.writeA) &&
    decide (sched.indexOf RaceEv.readB < sched.indexOf RaceEv.writeB)

/-- Concrete domain used in the witnesses. -/
def xcomChars : Dom := "x.com".toList

/-- A second concrete persisted entry for the race counterexample. -/
def otherChars : Dom := "other.com".toList

/-- Concrete domain for the hash collision. -/
def adscomChars : Dom := "ads.com".toList

/-- A domain differing from adscomChars in its final character only. -/
def adsconChars : Dom := "ads.con".toList

/-- The empty store with the extension freshly enabled. -/
def emptyWorld : World :=
  { disabledDomains := [], sessionRules := [], isEnabled := true,
    ruleset1Enabled := true }

/-- The pair-absence test for a session-rule table: no rule carries either
identity of the domain's override pair. -/
def pairFreeB (tbl : List SessionRule) (d : Dom) : Bool :=
  tbl.all (fun r => decide (r.id ≠ hashCode d ∧ r.id ≠ hashCode d + 1))

theorem specTrim_eq_jsTrim (l : List Char) : specTrim l = jsTrim l := rfl

theorem jsTrim_append_trimChar (l : List Char) (c : Char) (hc : isTrimChar c = true) :
    jsTrim (l ++ [c]) = jsTrim l := by
  unfold jsTrim
  rcases h : l.dropWhile isTrimChar with _ | ⟨a, as⟩
  · rw [List.dropWhile_append, h]
    simp [List.dropWhile_cons, hc]
  · rw [List.dropWhile_append, h]
    simp only [List.isEmpty_cons, List.reverse_append, List.reverse_cons,
      List.reverse_nil, List.nil_append, List.singleton_append, Bool.false_eq_true,
      if_false, List.dropWhile_cons, hc, if_true]

theorem trimmedOf_eq_specTrim (line : List Char) : trimmedOf line = specTrim line := by
  rw [specTrim_eq_jsTrim]
  unfold trimmedOf stripCR
  rcases h : line.getLast? with _ | c
  · simp
  by_cases hc : c = '\r'
  · subst hc
    simp only [if_pos rfl]
    have hne : line ≠ [] := by
      intro hnil
      rw [hnil] at h
      simp at h
    have hlast : line.getLast hne = '\r' := by
      have := List.getLast?_eq_getLast line hne
      rw [h] at this
      exact (Option.some.injEq _ _).mp this.symm
    conv_rhs => rw [← List.dropLast_append_getLast hne, hlast]
    exact (jsTrim_append_trimChar _ _ (by decide)).symm
  · rw [if_neg (by simp [hc])]

theorem okChar_eq (c : Char) :
    okChar c = decide (c ≠ '*' ∧ c ≠ '/' ∧ c ≠ Char.ofNat 0) := by
  unfold okChar
  by_cases h1 : c = '*' <;> by_cases h2 : c = '/' <;> by_cases h3 : c = Char.ofNat 0 <;>
    simp [h1, h2, h3]

theorem isCommentOrEmpty_eq (t : List Char) : isCommentOrEmpty t = specIgnorable t := by
  cases t with
  | nil => rfl
  | cons c ts => simp [isCommentOrEmpty, specIgnorable]

theorem specWellFormed_shape (t : List Char) (h : specWellFormed t = true) :
    t = '|' :: '|' :: t.drop 2 := by
  have htake : t.take 2 = ['|', '|'] := by
    unfold specWellFormed at h
    simp only [Bool.and_eq_true, decide_eq_true_eq] at h
    exact h.1.1.1.1.2
  conv_lhs => rw [← List.take_append_drop 2 t, htake]
  rfl

theorem specWellFormed_not_ignorable (t : List Char) (h : specWellFormed t = true) :
    specIgnorable t = false := by
  rw [specWellFormed_shape t h]
  rfl

theorem okChar_all_eq (l : List Char) :
    l.all okChar = l.all (fun c => decide (c ≠ '*' ∧ c ≠ '/' ∧ c ≠ Char.ofNat 0)) := by
  rw [show okChar = fun c => decide (c ≠ '*' ∧ c ≠ '/' ∧ c ≠ Char.ofNat 0) from
    funext okChar_eq]

theorem processLine_eq (p : Nat) (st : CompState) (line : List Char) :
    processLine p st line =
      if specWellFormed (trimmedOf line) then addSt p st (trimmedOf line) else skipSt st := by
  cases hWF : specWellFormed (trimmedOf line) with
  | true =>
    rw [if_pos rfl]
    have hcomment : isCommentOrEmpty (trimmedOf line) = false := by
      rw [isCommentOrEmpty_eq]
      exact specWellFormed_not_ignorable _ hWF
    unfold specWellFormed at hWF
    simp only [Bool.and_eq_true, decide_eq_true_eq] at hWF
    obtain ⟨⟨⟨⟨⟨hlen, htake⟩, hlast⟩, hne⟩, hmax⟩, hall⟩ := hWF
    unfold processLine
    simp only [hcomment, Bool.false_eq_true, if_false, startsWithBars, endsWithCaret]
    rw [if_pos (by simp [hlen, htake, hlast])]
    rw [if_neg (by
      simp only [Bool.or_eq_true, decide_eq_true_eq, not_or, Nat.not_lt]
      exact ⟨fun h0 => hne (List.length_eq_zero.mp h0), hmax⟩)]
    rw [if_pos (by rw [okChar_all_eq]; exact hall)]
    rfl
  | false =>
    rw [if_neg (by simp)]
    unfold processLine
    cases hcomment : isCommentOrEmpty (trimmedOf line) with
    | true => simp only [hcomment, if_true]; rfl
    | false =>
      simp only [hcomment, Bool.false_eq_true, if_false]
      by_cases hanchor :
          (decide (4 < (trimmedOf line).length) && startsWithBars (trimmedOf line) &&
            endsWithCaret (trimmedOf line)) = true
      · rw [if_pos hanchor]
        simp only [startsWithBars, endsWithCaret, Bool.and_eq_true, decide_eq_true_eq]
          at hanchor
        obtain ⟨⟨hlen, htake⟩, hlast⟩ := hanchor
        by_cases hzero :
            (decide (((trimmedOf line).drop 2).dropLast.length = 0) ||
              decide (MAX_FILTER_LENGTH < ((trimmedOf line).drop 2).dropLast.length)) = true
        · rw [if_pos hzero]
          rfl
        · rw [if_neg hzero]
          simp only [Bool.or_eq_true, decide_eq_true_eq, not_or, Nat.not_lt] at hzero
          obtain ⟨hne, hmax⟩ := hzero
          cases hall : ((trimmedOf line).drop 2).dropLast.all okChar with
          | true =>
            exfalso
            apply Bool.false_ne_true
            rw [← hWF]
            unfold specWellFormed
            simp only [Bool.and_eq_true, decide_eq_true_eq]
            refine ⟨⟨⟨⟨⟨hlen, htake⟩, hlast⟩, ?_⟩, hmax⟩, ?_⟩
            · simp only [List.length_eq_zero] at hne
              exact hne
            · rw [← okChar_all_eq]
              exact hall
          | false =>
            simp only [hall, Bool.false_eq_true, if_false]
            rfl
      · rw [if_neg hanchor]
        rfl

/-- C1: for every logical line, the compiler first trims ASCII space, tab
and CR from both ends (the separate stripping of one trailing CR is
absorbed by the trim); the line is then skipped exactly when it is empty or
its first character is a hash, an exclamation mark or an opening bracket; a
rule is produced from it exactly when the trimmed line is longer than four
characters, starts with the double-bar anchor, ends with the caret anchor,
and the substring strictly between the anchors is non-empty, at most
MAX_FILTER_LENGTH long and free of asterisk, slash and null; every other
line is rejected.  Ignorable and rejected lines alike increment
skippedLines and produce no rule. -/
theorem c1_line_classification (p : Nat) (st : CompState) (line : List Char) :
    processLine p st line =
      if specIgnorable (specTrim line) then skipSt st
      else if specWellFormed (specTrim line) then addSt p st (specTrim line)
      else skipSt st := by
  rw [processLine_eq, ← trimmedOf_eq_specTrim]
  cases hWF : specWellFormed (trimmedOf line) with
  | true =>
    rw [specWellFormed_not_ignorable _ hWF]
    simp
  | false =>
    by_cases hig : specIgnorable (trimmedOf line) = true <;> simp [hig]

theorem foldl_processLine (p : Nat) (lines : List (List Char)) (st : CompState) :
    lines.foldl (processLine p) st =
      { ruleId := st.ruleId + ((lines.map trimmedOf).filter specWellFormed).length,
        rules := st.rules ++ rulesFrom p st.ruleId ((lines.map trimmedOf).filter specWellFormed),
        processedRules :=
          st.processedRules + ((lines.map trimmedOf).filter specWellFormed).length,
        skippedLines :=
          st.skippedLines + (lines.length - ((lines.map trimmedOf).filter specWellFormed).length),
        errors := st.errors } := by
  induction lines generalizing st with
  | nil => simp [rulesFrom]
  | cons l ls ih =>
    have hle : ((ls.map trimmedOf).filter specWellFormed).length ≤ ls.length := by
      calc ((ls.map trimmedOf).filter specWellFormed).length
          ≤ (ls.map trimmedOf).length := List.length_filter_le _ _
        _ = ls.length := List.length_map _ _
    simp only [List.foldl_cons, List.map_cons, List.filter_cons]
    rw [processLine_eq]
    cases hWF : specWellFormed (trimmedOf l) with
    | true =>
      simp only [if_true]
      rw [ih]
      simp only [addSt, rulesFrom, List.append_assoc, List.singleton_append,
        List.length_cons]
      congr 1 <;> omega
    | false =>
      simp only [Bool.false_eq_true, if_false]
      rw [ih]
      simp only [skipSt, List.length_cons]
      congr 1
      omega

theorem precompile_str (text : List Char) (startId priority : Nat)
    (h1 : startId ≠ 0) (h2 : priority ≠ 0) :
    precompileFilterList (.str text) startId priority =
      .ok { rules := rulesFrom priority startId (acceptedLines text),
            totalLines := (jsLines text).length,
            processedRules := (acceptedLines text).length,
            skippedLines := (jsLines text).length - (acceptedLines text).length,
            errors := 0 } := by
  have hle : (acceptedLines text).length ≤ (jsLines text).length := by
    calc (acceptedLines text).length
        ≤ ((jsLines text).map trimmedOf).length := List.length_filter_le _ _
      _ = (jsLines text).length := List.length_map _ _
  simp only [precompileFilterList]
  cases he : text.isEmpty with
  | true =>
    have htext : text = [] := by
      cases text with
      | nil => rfl
      | cons c cs => simp at he
    subst htext
    simp [acceptedLines, jsLines, rulesFrom]
  | false =>
    simp only [he, Bool.false_eq_true, if_false, if_neg h1, if_neg h2]
    rw [foldl_processLine]
    simp only [Except.ok.injEq, CompileResult.mk.injEq, List.nil_append, Nat.zero_add,
      acceptedLines]
    unfold acceptedLines at hle
    exact ⟨trivial, by omega, trivial, trivial, trivial⟩

/-- C9: a non-string argument makes precompileFilterList fail fast with the
invalid-argument error, producing no rules and no statistics, while the
empty string is accepted and yields an empty rule list with every stat
zero. -/
theorem c9_input_validation (startId priority : Nat) :
    precompileFilterList .nonString startId priority =
        .error "Filter text must be a string" ∧
      precompileFilterList (.str []) startId priority =
        .ok { rules := [], totalLines := 0, processedRules := 0,
              skippedLines := 0, errors := 0 } :=
  ⟨rfl, rfl⟩

/-- C8 (amended): for a positive startId and priority (a zero value is
replaced by 1, because the source reads the options with the JS OR
operator), the compiled rules are exactly one rule per accepted line, in
input order, with consecutive identities counting up from startId, the
given priority, the block action and the trimmed source line as its
urlFilter. -/
theorem c8_rule_construction (text : List Char) (startId priority : Nat)
    (h1 : 0 < startId) (h2 : 0 < priority) :
    compiledRules (.str text) startId priority =
      rulesFrom priority startId (acceptedLines text) := by
  unfold compiledRules
  rw [precompile_str text startId priority (by omega) (by omega)]

theorem c8_rule_construction_witness :
    0 < 1 ∧ compiledRules (.str ("||ads.example.com^".toList)) 1 1 =
      rulesFrom 1 1 (acceptedLines ("||ads.example.com^".toList)) :=
  ⟨by decide, c8_rule_construction _ 1 1 (by decide) (by decide)⟩

/-- C8 counterexample: with options startId = 0 the claim demands that the
single rule compiled from one valid line carry id 0 + 1 - 1 = 0, but the
code's falsy-value defaulting replaces startId 0 by 1, so the rule's id
is 1. -/
theorem c8_zero_start_counterexample :
    (compiledRules (.str ("||a.com^".toList)) 0 7).map CompiledRule.id = [1] ∧
      (1 : Nat) ≠ 0 + 1 - 1 := by
  constructor
  · rfl
  · decide

theorem toInt32_bounds (n : Int) : -(2 ^ 31) ≤ toInt32 n ∧ toInt32 n < 2 ^ 31 := by
  unfold toInt32
  have h0 := Int.emod_nonneg (n + 2 ^ 31) (by norm_num : (2 ^ 32 : Int) ≠ 0)
  have h1 := Int.emod_lt_of_pos (n + 2 ^ 31) (by norm_num : (0 : Int) < 2 ^ 32)
  have h2 : (2 : Int) ^ 32 = 2 ^ 31 + 2 ^ 31 := by norm_num
  constructor <;> linarith

theorem hashAccum_bounds (l : List Char) (h : Int)
    (hlo : -(2 ^ 31) ≤ h) (hhi : h < 2 ^ 31) :
    -(2 ^ 31) ≤ l.foldl (fun a c => toInt32 (toInt32 (32 * a) - a + (c.toNat : Int))) h ∧
      l.foldl (fun a c => toInt32 (toInt32 (32 * a) - a + (c.toNat : Int))) h < 2 ^ 31 := by
  induction l generalizing h with
  | nil => exact ⟨hlo, hhi⟩
  | cons c cs ih =>
    simp only [List.foldl_cons]
    exact ih _ (toInt32_bounds _).1 (toInt32_bounds _).2

theorem hashCode_le (s : List Char) : hashCode s ≤ 2 ^ 31 := by
  unfold hashCode
  have hb := hashAccum_bounds s 0 (by norm_num) (by norm_num)
  omega

/-- C4 counterexample: the pair spaces are not disjoint.  The domains
ads.con and ads.com are distinct, yet the outgoing identity of ads.con
equals the incoming identity of ads.com; and compiling one valid line with
startId equal to the incoming identity of x.com yields a CompiledRule whose
id coincides with that identity, so the compiled identity space is not
disjoint from the override-pair space either. -/
theorem c4_collision_counterexample :
    (overridePair adsconChars).2 = (overridePair adscomChars).1 ∧
      adsconChars ≠ adscomChars ∧
      (compiledRules (.str ("||a.com^".toList)) (overridePair xcomChars).1 1).map
          CompiledRule.id =
        [(overridePair xcomChars).1] := by
  refine ⟨by decide, by decide, by decide⟩

/-- C4 (amended): the Identity Allocator is deterministic and structural —
for every domain the derived pair is (hashCode d, hashCode d + 1) with
hashCode d at most 2 ^ 31 — but neither disjointness from the compiled-rule
identity space nor disjointness between the pairs of distinct domains is
guaranteed. -/
theorem c4_override_pair_structure (d : Dom) :
    (overridePair d).1 = hashCode d ∧ (overridePair d).2 = hashCode d + 1 ∧
      (overridePair d).1 ≤ 2 ^ 31 :=
  ⟨rfl, rfl, hashCode_le d⟩

/-- C5: the code persists first and calls the adapter second.  With an
adapter that rejects the first session-rule add, toggling blocking off for
x.com from the empty store leaves x.com recorded in disabledDomains while
the adapter holds no allow rule at all — the persisted state claims an
exemption the adapter does not have, contradicting the claim's ordering
requirement.  The final conjunct shows the adapter failure really occurred
and was swallowed. -/
theorem c5_persist_before_adapter :
    (toggleRulesetFuerDomain
        { failAdd1 := true, failAdd2 := false, failRemove := false }
        emptyWorld xcomChars false).1.disabledDomains = [xcomChars] ∧
      (toggleRulesetFuerDomain
          { failAdd1 := true, failAdd2 := false, failRemove := false }
          emptyWorld xcomChars false).1.sessionRules = [] ∧
      (toggleRulesetFuerDomain
          { failAdd1 := true, failAdd2 := false, failRemove := false }
          emptyWorld xcomChars false).2 = true := by
  refine ⟨rfl, rfl, rfl⟩

/-- C6: the toggle entry point cannot observe adapter failures.  For every
oracle — including every failing adapter — handleToggleBlocking returns the
success response, because both toggleRulesetFuerDomain and
updateSessionRulesForDomain catch and only log their errors; the second
conjunct exhibits a concrete adapter failure that is swallowed on the way. -/
theorem c6_adapter_error_swallowed :
    (∀ (o : Oracle) (s : World) (d : Dom) (b : Bool),
        (handleToggleBlocking o s (some d) b).2 = ToggleResponse.success b) ∧
      (updateSessionRulesForDomain
          { failAdd1 := true, failAdd2 := false, failRemove := false }
          [] xcomChars false).2 = true :=
  ⟨fun _ _ _ _ => rfl, rfl⟩

/-- C7: the startup path re-materializes nothing.  After any cold start the
session-rule table stays empty no matter which domains the persisted
ExemptionSet contains, and the install-time initialisieren path leaves the
table untouched as well; only the static ruleset flag is re-applied. -/
theorem c7_no_rematerialization (s : World) :
    (coldStart s).sessionRules = [] ∧
      (coldStart s).disabledDomains = s.disabledDomains ∧
      (initialisieren s).sessionRules = s.sessionRules :=
  ⟨rfl, rfl, rfl⟩

theorem pairFreeB_iff (tbl : List SessionRule) (d : Dom) :
    pairFreeB tbl d = true ↔
      ∀ r ∈ tbl, r.id ≠ hashCode d ∧ r.id ≠ hashCode d + 1 := by
  simp [pairFreeB, List.all_eq_true]

@[simp]
theorem mkInitiatorAllowRule_id (i : Nat) (d : Dom) :
    (mkInitiatorAllowRule i d).id = i := rfl

@[simp]
theorem mkRequestAllowRule_id (i : Nat) (d : Dom) :
    (mkRequestAllowRule i d).id = i := rfl

@[simp]
theorem noFail_failAdd1 : noFail.failAdd1 = false := rfl

@[simp]
theorem noFail_failAdd2 : noFail.failAdd2 = false := rfl

@[simp]
theorem noFail_failRemove : noFail.failRemove = false := rfl

theorem update_add_pairFree (tbl : List SessionRule) (d : Dom)
    (h : pairFreeB tbl d = true) :
    updateSessionRulesForDomain noFail tbl d false =
      (tbl ++ [mkInitiatorAllowRule (hashCode d) d,
               mkRequestAllowRule (hashCode d + 1) d], false) := by
  have hfree := (pairFreeB_iff tbl d).mp h
  have hany1 : tbl.any (fun q => decide (q.id = hashCode d)) = false := by
    simp only [List.any_eq_false, decide_eq_true_eq]
    exact fun q hq => (hfree q hq).1
  have hany2 : tbl.any (fun q => decide (q.id = hashCode d + 1)) = false := by
    simp only [List.any_eq_false, decide_eq_true_eq]
    exact fun q hq => (hfree q hq).2
  unfold updateSessionRulesForDomain addSessionRule
  simp only [Bool.false_eq_true, if_false, noFail_failAdd1, noFail_failAdd2,
    Bool.false_or, mkInitiatorAllowRule_id, mkRequestAllowRule_id]
  rw [hany1]
  simp only [Bool.false_eq_true, if_false]
  rw [List.any_append, hany2]
  simp only [List.any_cons, List.any_nil, mkInitiatorAllowRule_id, Bool.false_or,
    Bool.or_false]
  rw [decide_eq_false (by omega : ¬(hashCode d = hashCode d + 1))]
  simp only [Bool.false_eq_true, if_false, List.append_assoc, List.singleton_append]

theorem update_add_duplicate (tbl : List SessionRule) (d : Dom)
    (h : tbl.any (fun q => decide (q.id = hashCode d)) = true) :
    updateSessionRulesForDomain noFail tbl d false = (tbl, true) := by
  unfold updateSessionRulesForDomain addSessionRule
  simp only [Bool.false_eq_true, if_false, noFail_failAdd1, noFail_failAdd2,
    Bool.false_or, mkInitiatorAllowRule_id, mkRequestAllowRule_id]
  rw [h]
  simp only [if_true]

theorem update_remove_eq (tbl : List SessionRule) (d : Dom) :
    updateSessionRulesForDomain noFail tbl d true =
      (tbl.filter (fun q => decide (q.id ≠ hashCode d ∧ q.id ≠ hashCode d + 1)),
        false) := rfl

theorem update_remove_pairFree (tbl : List SessionRule) (d : Dom)
    (h : pairFreeB tbl d = true) :
    updateSessionRulesForDomain noFail tbl d true = (tbl, false) := by
  rw [update_remove_eq]
  have hfree := (pairFreeB_iff tbl d).mp h
  rw [List.filter_eq_self.mpr (fun q hq => by simp only [decide_eq_true_eq]; exact hfree q hq)]

theorem mem_applyDomainToggle_self (l : List Dom) (d : Dom) (e : Bool) :
    d ∈ applyDomainToggle l d e ↔ e = false := by
  unfold applyDomainToggle
  cases e with
  | true =>
    simp only [if_true, List.mem_filter, decide_eq_true_eq]
    constructor
    · rintro ⟨-, hne⟩
      exact absurd rfl hne
    · intro h
      exact absurd h (by simp)
  | false =>
    simp only [Bool.false_eq_true, if_false]
    by_cases hd : d ∈ l
    · simp [hd]
    · simp [hd]

theorem applyDomainToggle_enable_of_not_mem (l : List Dom) (d : Dom)
    (h : d ∉ l) : applyDomainToggle l d true = l := by
  unfold applyDomainToggle
  simp only [if_true]
  exact List.filter_eq_self.mpr fun a ha => by
    simp only [decide_eq_true_eq]
    exact fun had => h (had ▸ ha)

theorem applyDomainToggle_disable_of_mem (l : List Dom) (d : Dom)
    (h : d ∈ l) : applyDomainToggle l d false = l := by
  unfold applyDomainToggle
  simp only [Bool.false_eq_true, if_false, if_pos h]

/-- C2: the Blocked-to-Exempted transition is idempotent.  Starting from
any store whose session-rule table is free of the domain's pair and whose
disabledDomains list holds the domain at most once, disabling blocking for
the domain twice in a row produces the same store as disabling it once: no
error escapes (the toggle is a total function whose swallowed-error flag is
internal), the domain sits in disabledDomains exactly once, and exactly one
rule with each of the pair's two identities is installed, not two.
Symmetrically, re-enabling blocking when the domain is already Blocked
changes nothing. -/
theorem c2_toggle_idempotent (s : World) (d : Dom)
    (hfree : pairFreeB s.sessionRules d = true)
    (hcount : s.disabledDomains.count d ≤ 1) :
    ((toggleRulesetFuerDomain noFail
          ((toggleRulesetFuerDomain noFail s d false).1) d false).1 =
        (toggleRulesetFuerDomain noFail s d false).1) ∧
      (toggleRulesetFuerDomain noFail s d false).1.disabledDomains.count d = 1 ∧
      ((toggleRulesetFuerDomain noFail s d false).1.sessionRules.filter
          (fun r => decide (r.id = hashCode d))).length = 1 ∧
      ((toggleRulesetFuerDomain noFail s d false).1.sessionRules.filter
          (fun r => decide (r.id = hashCode d + 1))).length = 1 ∧
      (d ∉ s.disabledDomains → (toggleRulesetFuerDomain noFail s d true).1 = s) := by
  obtain ⟨L, tbl, e1, e2⟩ := s
  simp only at hfree hcount
  have hs1 : (toggleRulesetFuerDomain noFail ⟨L, tbl, e1, e2⟩ d false).1 =
      ⟨applyDomainToggle L d false,
        tbl ++ [mkInitiatorAllowRule (hashCode d) d,
                mkRequestAllowRule (hashCode d + 1) d], e1, e2⟩ := by
    unfold toggleRulesetFuerDomain
    rw [update_add_pairFree tbl d hfree]
  rw [hs1]
  have hmem1 : d ∈ applyDomainToggle L d false :=
    (mem_applyDomainToggle_self L d false).mpr rfl
  have hdup : (tbl ++ [mkInitiatorAllowRule (hashCode d) d,
      mkRequestAllowRule (hashCode d + 1) d]).any
        (fun q => decide (q.id = hashCode d)) = true := by
    rw [List.any_append]
    simp [mkInitiatorAllowRule]
  refine ⟨?_, ?_, ?_, ?_, ?_⟩
  · unfold toggleRulesetFuerDomain
    rw [update_add_duplicate _ d hdup]
    simp only
    rw [applyDomainToggle_disable_of_mem _ _ hmem1]
  · simp only
    unfold applyDomainToggle
    simp only [Bool.false_eq_true, if_false]
    by_cases hd : d ∈ L
    · rw [if_pos hd]
      have := List.count_pos_iff.mpr hd
      omega
    · rw [if_neg hd, List.count_append]
      rw [List.count_eq_zero.mpr hd]
      simp
  · simp only
    rw [List.filter_append]
    rw [List.filter_eq_nil_iff.mpr (fun q hq => by
      simp only [decide_eq_true_eq]
      exact ((pairFreeB_iff tbl d).mp hfree q hq).1)]
    simp [mkInitiatorAllowRule, mkRequestAllowRule]
  · simp only
    rw [List.filter_append]
    rw [List.filter_eq_nil_iff.mpr (fun q hq => by
      simp only [decide_eq_true_eq]
      exact ((pairFreeB_iff tbl d).mp hfree q hq).2)]
    simp [mkInitiatorAllowRule, mkRequestAllowRule]
  · intro hmem
    simp only at hmem
    unfold toggleRulesetFuerDomain
    rw [update_remove_pairFree tbl d hfree]
    simp only
    rw [applyDomainToggle_enable_of_not_mem L d hmem]

theorem c2_toggle_idempotent_witness :
    pairFreeB emptyWorld.sessionRules xcomChars = true ∧
      emptyWorld.disabledDomains.count xcomChars ≤ 1 ∧
      (((toggleRulesetFuerDomain noFail
            ((toggleRulesetFuerDomain noFail emptyWorld xcomChars false).1)
            xcomChars false).1 =
          (toggleRulesetFuerDomain noFail emptyWorld xcomChars false).1) ∧
        (toggleRulesetFuerDomain noFail emptyWorld xcomChars
            false).1.disabledDomains.count xcomChars = 1 ∧
        ((toggleRulesetFuerDomain noFail emptyWorld xcomChars
            false).1.sessionRules.filter
            (fun r => decide (r.id = hashCode xcomChars))).length = 1 ∧
        ((toggleRulesetFuerDomain noFail emptyWorld xcomChars
            false).1.sessionRules.filter
            (fun r => decide (r.id = hashCode xcomChars + 1))).length = 1 ∧
        (xcomChars ∉ emptyWorld.disabledDomains →
          (toggleRulesetFuerDomain noFail emptyWorld xcomChars true).1 = emptyWorld)) :=
  ⟨by decide, by decide, c2_toggle_idempotent emptyWorld xcomChars (by decide) (by decide)⟩

/-- C3: the round trip restores the store.  From any store in which the
domain is not yet exempted and whose session-rule table is free of the
domain's pair, disabling and then re-enabling blocking for the domain
returns the whole store — disabledDomains included — to its initial value,
and in particular both session rules of the pair are removed again. -/
theorem c3_round_trip (s : World) (d : Dom)
    (hfree : pairFreeB s.sessionRules d = true)
    (hmem : d ∉ s.disabledDomains) :
    (toggleRulesetFuerDomain noFail
        ((toggleRulesetFuerDomain noFail s d false).1) d true).1 = s ∧
      pairFreeB (toggleRulesetFuerDomain noFail
        ((toggleRulesetFuerDomain noFail s d false).1) d true).1.sessionRules d = true := by
  obtain ⟨L, tbl, e1, e2⟩ := s
  simp only at hfree hmem
  have hs1 : (toggleRulesetFuerDomain noFail ⟨L, tbl, e1, e2⟩ d false).1 =
      ⟨applyDomainToggle L d false,
        tbl ++ [mkInitiatorAllowRule (hashCode d) d,
                mkRequestAllowRule (hashCode d + 1) d], e1, e2⟩ := by
    unfold toggleRulesetFuerDomain
    rw [update_add_pairFree tbl d hfree]
  rw [hs1]
  have hL1 : applyDomainToggle L d false = L ++ [d] := by
    unfold applyDomainToggle
    simp only [Bool.false_eq_true, if_false, if_neg hmem]
  have hback : (toggleRulesetFuerDomain noFail
      ⟨applyDomainToggle L d false,
        tbl ++ [mkInitiatorAllowRule (hashCode d) d,
                mkRequestAllowRule (hashCode d + 1) d], e1, e2⟩ d true).1 =
      ⟨L, tbl, e1, e2⟩ := by
    unfold toggleRulesetFuerDomain
    rw [update_remove_eq]
    simp only
    rw [hL1]
    congr 1
    · unfold applyDomainToggle
      simp only [if_true, List.filter_append]
      rw [List.filter_eq_self.mpr (fun a ha => by
        simp only [decide_eq_true_eq]
        exact fun had => hmem (had ▸ ha))]
      rw [show ([d].filter fun a => decide (a ≠ d)) = [] by simp]
      exact List.append_nil L
    · rw [List.filter_append]
      rw [List.filter_eq_self.mpr (fun q hq => by
        simp only [decide_eq_true_eq]
        exact (pairFreeB_iff tbl d |>.mp hfree) q hq)]
      rw [show ([mkInitiatorAllowRule (hashCode d) d,
          mkRequestAllowRule (hashCode d + 1) d].filter
            (fun q => decide (q.id ≠ hashCode d ∧ q.id ≠ hashCode d + 1))) = [] by
        simp [mkInitiatorAllowRule, mkRequestAllowRule]]
      exact List.append_nil tbl
  rw [hback]
  exact ⟨rfl, hfree⟩

theorem c3_round_trip_witness :
    pairFreeB emptyWorld.sessionRules xcomChars = true ∧
      xcomChars ∉ emptyWorld.disabledDomains ∧
      ((toggleRulesetFuerDomain noFail
          ((toggleRulesetFuerDomain noFail emptyWorld xcomChars false).1)
          xcomChars true).1 = emptyWorld ∧
        pairFreeB (toggleRulesetFuerDomain noFail
          ((toggleRulesetFuerDomain noFail emptyWorld xcomChars false).1)
          xcomChars true).1.sessionRules xcomChars = true) :=
  ⟨by decide, by decide, c3_round_trip emptyWorld xcomChars (by decide) (by decide)⟩

theorem validSched_mem_allScheds (e1 e2 e3 e4 : RaceEv)
    (h : validSched [e1, e2, e3, e4] = true) : [e1, e2, e3, e4] ∈ allScheds := by
  revert h
  revert e1 e2 e3 e4
  decide

/-- C10 counterexample: the read-modify-write of two overlapping toggles on
the same domain is not effectively atomic.  With x.com initially exempted
(persisted list x.com then other.com), caller A re-disabling and caller B
re-enabling, the interleaving in which both callers read before either
writes and A writes last leaves the persisted list equal to its initial
value — different from the outcome of both serial orders, with caller B's
write silently overwritten by A's stale one. -/
theorem c10_race_counterexample :
    raceExec xcomChars false xcomChars true [xcomChars, otherChars]
        [.readA, .readB, .writeB, .writeA] = [xcomChars, otherChars] ∧
      applyDomainToggle (applyDomainToggle [xcomChars, otherChars] xcomChars false)
          xcomChars true = [otherChars] ∧
      applyDomainToggle (applyDomainToggle [xcomChars, otherChars] xcomChars true)
          xcomChars false = [otherChars, xcomChars] ∧
      ([xcomChars, otherChars] : List Dom) ≠ [otherChars] ∧
      ([xcomChars, otherChars] : List Dom) ≠ [otherChars, xcomChars] := by
  refine ⟨by decide, by decide, by decide, by decide, by decide⟩

/-- C10 (amended): the toggles are not serialized — an interleaved earlier
write can be silently overwritten by a later write computed from a stale
read — but in every interleaving of two same-domain toggles the final
persisted list still matches the request of one of the two callers with
respect to that domain's membership: the domain ends up in the persisted
ExemptionSet exactly when the last writer asked for blocking to be
disabled. -/
theorem c10_same_domain_race (l0 : List Dom) (d : Dom) (eA eB : Bool)
    (sched : List RaceEv) (h : sched ∈ allScheds) :
    ((d ∈ raceExec d eA d eB l0 sched) ↔ eA = false) ∨
      ((d ∈ raceExec d eA d eB l0 sched) ↔ eB = false) := by
  have hA := mem_applyDomainToggle_self (applyDomainToggle l0 d eB) d eA
  have hB := mem_applyDomainToggle_self (applyDomainToggle l0 d eA) d eB
  have hA0 := mem_applyDomainToggle_self l0 d eA
  have hB0 := mem_applyDomainToggle_self l0 d eB
  simp only [allScheds, List.mem_cons, List.not_mem_nil, or_false] at h
  rcases h with h | h | h | h | h | h <;> subst h <;>
    simp only [raceExec, List.foldl_cons, List.foldl_nil, raceStep]
  · exact Or.inr hB
  · exact Or.inl hA
  · exact Or.inr hB0
  · exact Or.inl hA0
  · exact Or.inr hB0
  · exact Or.inl hA0

theorem c10_same_domain_race_witness :
    ([RaceEv.readA, .writeA, .readB, .writeB] ∈ allScheds) ∧
      (((xcomChars ∈ raceExec xcomChars false xcomChars true []
            [RaceEv.readA, .writeA, .readB, .writeB]) ↔ false = false) ∨
        ((xcomChars ∈ raceExec xcomChars false xcomChars true []
            [RaceEv.readA, .writeA, .readB, .writeB]) ↔ true = false)) :=
  ⟨by decide, c10_same_domain_race [] xcomChars false true _ (by decide)⟩

end PagyBlocker
